import Mathlib

/-!
Verification of `scripts/notes_update_refs.py`.

Text is modelled as `List Char` (Python `str`).  Python string methods used by
the script (`strip`, `split`, `join`, `in`, `startswith`, `endswith`,
`lower`, whitespace splitting) are translated below, and the script's
functions are translated one by one, keeping the source names.  The regular
expressions of the script are simple enough to admit direct recursive
models: `re.sub(escape(a) + ".*?" + escape(b), repl, s, count=1)` is a
leftmost-shortest span replacement, `re.sub(r"\s+", " ", s)` is whitespace
run collapsing, `re.sub(r"[{}]", "", s)` is a filter, and the date regexes
are fixed-shape character tests.  Replacement text is inserted literally
(the generated blocks contain no backslash escapes).  Third-party library
calls (`yaml.safe_load`, `yaml.safe_dump`, `bibtexparser.load`, the file
system) are parameters of the model.
-/

namespace NotesRefs

set_option maxRecDepth 10000

abbrev Str := List Char

/-- Whitespace characters of Python `str.strip` / `\s` (ASCII range). -/
def isPySpace (c : Char) : Bool :=
  c = ' ' || c = '\t' || c = '\n' || c = '\r' || c = '\x0b' || c = '\x0c'

/-- Python `s.strip()` restricted to dropping trailing whitespace. -/
def rstripWs (s : Str) : Str :=
  (s.reverse.dropWhile isPySpace).reverse

/-- Python `s.strip()`. -/
def pyStrip (s : Str) : Str :=
  rstripWs (s.dropWhile isPySpace)

/-- Python `p in s` (substring test), for nonempty `p`. -/
def hasSub : Str → Str → Bool
  | p, [] => p.isEmpty
  | p, c :: cs => p.isPrefixOf (c :: cs) || hasSub p cs

/-- Split at the first occurrence of `p`: returns the part before the first
occurrence and the part after it. -/
def splitOnFirst (p : Str) : Str → Option (Str × Str)
  | [] => if p.isEmpty then some ([], []) else none
  | c :: cs =>
    if p.isPrefixOf (c :: cs) then some ([], (c :: cs).drop p.length)
    else (splitOnFirst p cs).map (fun q => (c :: q.1, q.2))

/-- Python `s.split(c)` for a single-character separator (keeps empty parts). -/
def splitChar (sep : Char) : Str → List Str
  | [] => [[]]
  | c :: cs =>
    if c = sep then [] :: splitChar sep cs
    else
      match splitChar sep cs with
      | [] => [[c]]
      | h :: t => (c :: h) :: t

/-- Helper of `pyWords`: scan accumulating the current word in reverse. -/
def wordsAux : Str → Str → List Str
  | cur, [] => if cur = [] then [] else [cur.reverse]
  | cur, c :: cs =>
    if isPySpace c then
      if cur = [] then wordsAux [] cs else cur.reverse :: wordsAux [] cs
    else wordsAux (c :: cur) cs

/-- Python `s.split()` (split on whitespace runs, no empty parts). -/
def pyWords (s : Str) : List Str :=
  wordsAux [] s

/-- Python `sep.join(xs)`. -/
def joinWith (sep : Str) : List Str → Str
  | [] => []
  | [x] => x
  | x :: y :: t => x ++ sep ++ joinWith sep (y :: t)

/-- Python `s.split(sep, maxsplit)`. -/
def splitSubCap (p : Str) : Nat → Str → List Str
  | 0, s => [s]
  | n + 1, s =>
    match splitOnFirst p s with
    | some (a, rest) => a :: splitSubCap p n rest
    | none => [s]

/-- Squeeze of consecutive space pairs to single spaces. -/
def squeezeSp : Str → Str
  | [] => []
  | [c] => [c]
  | c :: d :: cs =>
    if c = ' ' ∧ d = ' ' then squeezeSp (d :: cs)
    else c :: squeezeSp (d :: cs)

/-- Collapse of whitespace runs to single spaces, `re.sub(r"\s+", " ", s)`:
every whitespace character becomes a space and runs of spaces are squeezed,
which replaces each whitespace run by one space. -/
def collapseWs (s : Str) : Str :=
  squeezeSp (s.map (fun c => if isPySpace c then ' ' else c))

/-- Python `normalize_whitespace`: collapse whitespace runs, then strip. -/
def normalize_whitespace (s : Str) : Str :=
  pyStrip (collapseWs s)

def BEGIN_MARK : Str := "<!-- BEGIN:references -->".data

def END_MARK : Str := "<!-- END:references -->".data

/-- Python `clean_bibtex_braces`: strip, drop one outer brace pair, delete
remaining braces, strip. -/
def clean_bibtex_braces (text : Str) : Str :=
  if text = [] then []
  else
    let c0 := pyStrip text
    let c1 :=
      if c0.head? = some '\x7b' ∧ c0.getLast? = some '\x7d' then
        (c0.drop 1).dropLast
      else c0
    let c2 := c1.filter (fun ch => ¬ (ch = '\x7b' ∨ ch = '\x7d'))
    pyStrip c2

/-- Python `s.split(" and ")` (the separator of BibTeX author lists). -/
def andSep : Str := " and ".data

/-- Repeated splitting at the first occurrence of `p`, with fuel bounding
the number of cuts; each cut removes at least `p.length` characters, so fuel
equal to the initial length never runs out for nonempty `p`. -/
def splitSubAux (p : Str) : Nat → Str → List Str
  | 0, s => [s]
  | n + 1, s =>
    match splitOnFirst p s with
    | none => [s]
    | some q => q.1 :: splitSubAux p n q.2

/-- Python `s.split(" and ")`, scanning left to right. -/
def splitAnd (s : Str) : List Str :=
  splitSubAux andSep s.length s

/-- Initials of a given-name string: `" ".join([w[0] + "." for w in first.split() if w])`. -/
def initialsOf (first : Str) : Str :=
  joinWith [' ']
    ((pyWords first).map (fun w =>
      match w with
      | [] => []
      | ch :: _ => [ch, '.']))

/-- Formatting of one name inside `format_authors`: split on commas and strip
the parts; exactly two parts give `(last, first)` directly, otherwise the
name is split on whitespace with the final word as surname. -/
def formatName (name : Str) : Str :=
  let lf : Str × Str :=
    match (splitChar ',' name).map pyStrip with
    | [a, b] => (a, b)
    | _ =>
      let words := pyWords name
      (words.getLast?.getD [],
       if words.length > 1 then joinWith [' '] words.dropLast else [])
  let initials := initialsOf lf.2
  if initials = [] then lf.1 else lf.1 ++ ", ".data ++ initials

/-- Python `format_authors`: convert a BibTeX author field to
`Last, F.` forms joined by `" and "`. -/
def format_authors (author_field : Str) : Str :=
  if author_field = [] then []
  else
    joinWith andSep
      ((((splitAnd author_field).map pyStrip).filter (fun n => ¬ n = [])).map formatName)

/-- BibTeX entry restricted to the fields the script reads; a `none` field is
a key absent from the entry dictionary. -/
structure Entry where
  author : Option Str
  year : Option Str
  title : Option Str
  journal : Option Str
  volume : Option Str
  number : Option Str
  pages : Option Str
  doi : Option Str
  url : Option Str
deriving DecidableEq

/-- Entry with no fields besides the citation key. -/
def emptyEntry : Entry :=
  ⟨none, none, none, none, none, none, none, none, none⟩

/-- Python `safe_get`: `(entry.get(key) or "").strip()`. -/
def safe_get (field : Option Str) : Str :=
  pyStrip (field.getD [])

/-- Python `entry_link`: resolve a link target from `doi` and `url`. -/
def entry_link (entry : Entry) : Str :=
  let doi := safe_get entry.doi
  let url := safe_get entry.url
  if ¬ doi = [] then
    if "10.".data.isPrefixOf (doi.map Char.toLower) then
      "https://doi.org/".data ++ doi
    else if hasSub "doi.org".data doi then doi
    else if ¬ url = [] then url else doi
  else url

/-- Python `format_reference_html`: one-line HTML fragment for an entry. -/
def format_reference_html (key : Str) (entry : Entry) : Str :=
  let authors := format_authors (safe_get entry.author)
  let year := safe_get entry.year
  let title := normalize_whitespace (clean_bibtex_braces (safe_get entry.title))
  let journal := safe_get entry.journal
  let volume := safe_get entry.volume
  let number := safe_get entry.number
  let pages := safe_get entry.pages
  let link := entry_link entry
  let author_html :=
    if ¬ authors = [] then
      "<span style=\"font-variant: small-caps\"> ".data ++ authors ++ " </span>".data
    else []
  "1. <p id=\"".data ++ key ++ "\">".data
    ++ (if ¬ author_html = [] then " ".data ++ author_html ++ " ".data else [])
    ++ (if ¬ year = [] then year ++ " ".data else [])
    ++ (if ¬ title = [] then
          if ¬ link = [] then
            " <a href=\"".data ++ link ++ "\"> ".data ++ title ++ ". </a>".data
          else " ".data ++ title ++ ". ".data
        else [])
    ++ (if ¬ journal = [] then " <i> ".data ++ journal ++ "</i>".data else [])
    ++ (if ¬ volume = [] then " <b> ".data ++ volume ++ " </b>".data else [])
    ++ (if ¬ number = [] then " (".data ++ number ++ ")".data else [])
    ++ (if ¬ pages = [] then " ".data ++ pages else [])
    ++ "</p>".data

/-- The `DEFAULT_STYLE` constant of the script, byte for byte (including the
two trailing spaces after `navy;` and `transparent;`). -/
def DEFAULT_STYLE : Str :=
  ("<style>\np \x7b\n  font-family: sans;\n\x7d\na:link \x7b\n  color: navy; \n"
    ++ "  background-color: transparent; \n  text-decoration: none;\n\x7d\nol \x7b\n"
    ++ "  columns: 1;\n\x7d\nol > li::marker \x7b\n"
    ++ "  content: \"[\" counter(list-item) \"] \";\n\x7d\n</style>\n").data

/-- Lookup in the bib map (`bib_map.get(k)`); the map is the association list
of entries in file order, so repeated keys behave like dict insertion with
the later binding winning — modelled by keeping the last binding per key,
which the loader's dict comprehension produces. -/
def lookupKey (bib : List (Str × Entry)) (k : Str) : Option Entry :=
  (bib.find? (fun p => p.1 = k)).map (fun p => p.2)

/-- Python `generate_reference_block`.  The embedded timestamp
(`datetime.now().strftime(...)`) is the `now` parameter.  A key is missing
when `bib_map.get(k)` is falsy; `bibtexparser` entries always carry their
`ID` and `ENTRYTYPE` fields, so a present entry is a nonempty dict and only
absence (`None`) is falsy. -/
def generate_reference_block (keys : List Str) (bib : List (Str × Entry))
    (add_style : Bool) (now : Str) : Str :=
  let lines0 : List Str := if add_style then [pyStrip DEFAULT_STYLE, []] else []
  let lines1 := lines0 ++
    ["# Reference".data,
     "Generated bibliography markdown file. Date: ".data ++ now]
  let step := fun (acc : List Str × List Str) (k : Str) =>
    match lookupKey bib k with
    | some e => (acc.1 ++ [format_reference_html k e, []], acc.2)
    | none => (acc.1, acc.2 ++ [k])
  let em := keys.foldl step ([], [])
  let lines2 := lines1 ++ em.1
  let lines3 :=
    if ¬ em.2 = [] then
      lines2 ++ ["> **Note:** Missing BibTeX entries for keys: ".data
        ++ joinWith ", ".data em.2]
    else lines2
  let content := rstripWs (joinWith "\n".data lines3) ++ "\n".data
  BEGIN_MARK ++ "\n".data ++ content ++ "\n".data ++ END_MARK ++ "\n".data

/-- Leftmost-shortest match of `BEGIN_MARK .*? END_MARK` (DOTALL): returns
the text before the match and the text after it, scanning positions left to
right and, at the first position where `BEGIN_MARK` matches with an
`END_MARK` somewhere after it, ending the match at the first such
`END_MARK`. -/
def findRepl : Str → Option (Str × Str)
  | [] => none
  | c :: cs =>
    match
      (if BEGIN_MARK.isPrefixOf (c :: cs) then
        splitOnFirst END_MARK ((c :: cs).drop BEGIN_MARK.length)
      else none) with
    | some q => some ([], q.2)
    | none => (findRepl cs).map (fun q => (c :: q.1, q.2))

/-- Python `insert_or_replace_reference_block`.  When both markers occur, the
first `BEGIN ... END` span is replaced by the stripped new block
(`re.sub(..., count=1)`, with the replacement inserted literally); when the
pattern has no match the body is returned unchanged.  Otherwise the body is
padded to end in two newlines and the block is appended. -/
def insert_or_replace_reference_block (md_text : Str) (new_block : Str) : Str :=
  if hasSub BEGIN_MARK md_text && hasSub END_MARK md_text then
    match findRepl md_text with
    | some q => q.1 ++ pyStrip new_block ++ q.2
    | none => md_text
  else
    let md1 := if "\n".data.isSuffixOf md_text then md_text else md_text ++ "\n".data
    let md2 := if "\n\n".data.isSuffixOf md1 then md1 else md1 ++ "\n".data
    md2 ++ new_block

/-- Frontmatter `date` value: absent/falsy, a parsed date object (the YAML
loader turns ISO dates into `datetime.date`, which has `strftime`), or a
plain string. -/
inductive FrontDate where
  | noDate : FrontDate
  | dateObj (y m d : Nat) : FrontDate
  | dateStr (s : Str) : FrontDate
deriving DecidableEq

/-- Decimal digits of a number, zero-padded on the left to width `w`
(`strftime` zero-pads `%Y`/`%m`/`%d`). -/
def padNum (w : Nat) (n : Nat) : Str :=
  let s := (Nat.repr n).data
  List.replicate (w - s.length) '0' ++ s

/-- Test for the regex `^\d{4}-\d{2}-\d{2}` (a match uses exactly the first
ten characters). -/
def dateRe10 (s : Str) : Bool :=
  match s with
  | y1 :: y2 :: y3 :: y4 :: h1 :: m1 :: m2 :: h2 :: d1 :: d2 :: _ =>
    y1.isDigit && y2.isDigit && y3.isDigit && y4.isDigit && h1 = '-' &&
    m1.isDigit && m2.isDigit && h2 = '-' && d1.isDigit && d2.isDigit
  | _ => false

/-- Test for the regex `^\d{4}-\d{2}-\d{2}-` (eleven characters). -/
def dateRe11 (s : Str) : Bool :=
  dateRe10 s && (s.drop 10).head? = some '-'

/-- Python `_date_prefix_from_frontmatter`: `YYYY-MM-DD-` when the value
parses, otherwise the empty string. -/
def date_prefix_from_frontmatter : FrontDate → Str
  | .noDate => []
  | .dateObj y m d =>
    padNum 4 y ++ "-".data ++ padNum 2 m ++ "-".data ++ padNum 2 d ++ "-".data
  | .dateStr s =>
    if s = [] then []
    else
      let t := pyStrip s
      if dateRe10 t then t.take 10 ++ "-".data else []

/-- Python `os.path.splitext` on a bare filename: split at the last dot,
provided some character strictly before it is not a dot. -/
def splitext (p : Str) : Str × Str :=
  match p.reverse.findIdx? (fun c => c = '.') with
  | none => (p, [])
  | some j =>
    let i := p.length - 1 - j
    if (p.take i).any (fun c => ¬ c = '.') then (p.take i, p.drop i)
    else (p, [])

/-- Removal of a leading `YYYY-MM-DD-` prefix, `re.sub(r"^\d{4}-\d{2}-\d{2}-", "", root)`. -/
def stripDatePre (root : Str) : Str :=
  if dateRe11 root then root.drop 11 else root

/-- Backup filename computed by Python `make_backup` (the copy itself is an
effect of `process_file`); paths are modelled by their basename, the folder
being unchanged by the script's name computations. -/
def backupName (fname : Str) (front_date : FrontDate) : Str :=
  let root := (splitext fname).1
  let fm_prefix := date_prefix_from_frontmatter front_date
  let slug :=
    if ¬ fm_prefix = [] ∧ fm_prefix.isPrefixOf root then root.drop fm_prefix.length
    else stripDatePre root
  "tmp-".data ++ slug ++ ".bak".data

/-- Python `compute_target_path` on the basename: new filename
`<YYYY-MM-DD>-<slug><ext>`, or `none` when the date yields no prefix or the
name would not change. -/
def compute_target_path (fname : Str) (front_date : FrontDate) : Option Str :=
  let root := (splitext fname).1
  let ext := (splitext fname).2
  let slug := stripDatePre root
  let pre := date_prefix_from_frontmatter front_date
  if pre = [] then none
  else
    let new_name := pre ++ slug ++ ext
    if fname = new_name then none else some new_name

/-- Frontmatter mapping restricted to the keys the script reads. -/
structure Fm where
  bibfile : Option Str
  citekeys : List Str
  date : FrontDate
deriving DecidableEq

/-- Frontmatter mapping with no data (Python `{}`). -/
def emptyFm : Fm :=
  ⟨none, [], FrontDate.noDate⟩

/-- Result of `yaml.safe_load` on a frontmatter block: a parse error, a
non-dict (or falsy) value, or a mapping. -/
inductive YamlRes where
  | err : YamlRes
  | notDict : YamlRes
  | dict (fm : Fm) : YamlRes

/-- Environment of `process_file`: the third-party YAML functions, the file
system predicate `os.path.exists`, the bibliography loader result per path,
and the current timestamp. -/
structure Ctx where
  yamlParse : Str → YamlRes
  yamlDump : Fm → Str
  pathExists : Str → Bool
  bibMap : Str → List (Str × Entry)
  now : Str

/-- Python `extract_frontmatter`: leading `---`, split into at most three
parts, YAML-parse the middle; parse errors fall back to the whole text. -/
def extract_frontmatter (ctx : Ctx) (md_text : Str) : Fm × Str :=
  if ¬ "---".data.isPrefixOf md_text then (emptyFm, md_text)
  else
    let parts := splitSubCap "---".data 2 md_text
    if parts.length < 3 then (emptyFm, md_text)
    else
      let yaml_block := parts.getD 1 []
      let body := parts.getD 2 []
      match ctx.yamlParse yaml_block with
      | YamlRes.err => (emptyFm, md_text)
      | YamlRes.notDict => (emptyFm, body)
      | YamlRes.dict data => (data, body)

/-- Python `render_with_frontmatter`: dump the mapping (stripped), wrap in
`---` fences, and glue the body with exactly one separating newline. -/
def render_with_frontmatter (ctx : Ctx) (front : Fm) (body : Str) : Str :=
  "---\n".data ++ pyStrip (ctx.yamlDump front) ++ "\n---".data ++
    (if "\n".data.isPrefixOf body then body else "\n".data ++ body)

/-- File-system effects of `process_file`, in execution order. -/
inductive Effect where
  | copyFile (src dst : Str) : Effect
  | writeFile (path content : Str) : Effect
  | renameFile (src dst : Str) : Effect
deriving DecidableEq

/-- Test for an absolute path (`os.path.isabs`). -/
def isAbsPath (p : Str) : Bool :=
  "/".data.isPrefixOf p

/-- Python `os.path.join(base, rel)` for a relative second component. -/
def joinPath (a b : Str) : Str :=
  if a = [] then b
  else if "/".data.isSuffixOf a then a ++ b
  else a ++ "/".data ++ b

/-- Python `process_file`: returns the changed flag, the message, and the
file-system effects in order.  File reads are the `original` parameter;
writes, the backup copy and the rename are recorded as effects. -/
def process_file (ctx : Ctx) (path : Str) (original : Str)
    (inline_style : Bool) (dry_run : Bool) (base_folder : Str) :
    Bool × Str × List Effect :=
  let fb := extract_frontmatter ctx original
  let front := fb.1
  let body := fb.2
  let bibfile := front.bibfile.getD []
  let keys := front.citekeys
  let front_date := front.date
  if bibfile = [] ∨ keys = [] then
    (false, "No bibfile or citekeys in frontmatter.".data, [])
  else
    let bib_path := if isAbsPath bibfile then bibfile else joinPath base_folder bibfile
    if ¬ ctx.pathExists bib_path = true then
      (false, "Bib file not found: ".data ++ bibfile, [])
    else
      let bib_map := ctx.bibMap bib_path
      let block := generate_reference_block keys bib_map inline_style ctx.now
      let updated_body := insert_or_replace_reference_block body block
      let updated := render_with_frontmatter ctx front updated_body
      let target := compute_target_path path front_date
      if dry_run then
        let rename_msg :=
          match target with
          | some t => ", would rename to ".data ++ t
          | none => []
        if ¬ updated = original ∨ target.isSome then
          (true, "Would update (dry run)".data ++ rename_msg ++ ".".data, [])
        else (false, "No changes.".data, [])
      else
        let backup := backupName path front_date
        match target with
        | some t =>
          if ctx.pathExists t then
            (true, "Updated. Backup: ".data ++ backup
               ++ ". Rename skipped (target exists): ".data ++ t,
             [Effect.copyFile path backup, Effect.writeFile path updated])
          else
            (true, "Updated. Backup: ".data ++ backup ++ ". Renamed to: ".data ++ t,
             [Effect.copyFile path backup, Effect.writeFile path updated,
              Effect.renameFile path t])
        | none =>
          (true, "Updated. Backup: ".data ++ backup,
           [Effect.copyFile path backup, Effect.writeFile path updated])

/-- Position `i` of `s` starts a match of the pattern
`BEGIN_MARK .*? END_MARK`. -/
def matchAt (s : Str) (i : Nat) : Prop :=
  BEGIN_MARK.isPrefixOf (s.drop i) = true ∧
    hasSub END_MARK (s.drop (i + BEGIN_MARK.length)) = true

/-- Decidable test for the existence of a begin marker followed by an end
marker (a match of the replacement pattern). -/
def spanExistsB (s : Str) : Bool :=
  (List.range s.length).any (fun i =>
    BEGIN_MARK.isPrefixOf (s.drop i) && hasSub END_MARK (s.drop (i + BEGIN_MARK.length)))

/-- Append behaviour in the words of the specification sentence: normalize
the body's trailing newlines to exactly two, then append the block. -/
def claimNormalizedAppend (md blk : Str) : Str :=
  (md.reverse.dropWhile (fun ch => ch = '\n')).reverse ++ ['\n', '\n'] ++ blk

/-- Exact number of newline characters the append branch adds: none when the
body already ends in two newlines, one when it ends in exactly one, two
otherwise. -/
def specTrailingPad (md : Str) : Nat :=
  if ['\n', '\n'] <:+ md then 0
  else if ['\n'] <:+ md then 1
  else 2

/-- Option field with absence replaced by an explicit blank value. -/
def blankField (o : Option Str) : Option Str :=
  some (o.getD [])

/-- Entry with every absent field replaced by a blank field. -/
def blankify (e : Entry) : Entry :=
  ⟨blankField e.author, blankField e.year, blankField e.title, blankField e.journal,
   blankField e.volume, blankField e.number, blankField e.pages, blankField e.doi,
   blankField e.url⟩

/-- Rename computation in the words of the specification: strip a leading
four-digit-hyphen-two-digit-hyphen-two-digit-hyphen prefix from the filename
stem to obtain the slug; when the date parses, the candidate is
`<date>-<slug><ext>`, kept only when it differs from the current name; when
the date does not parse there is no target. -/
def specRenameTarget (fname : Str) (front_date : FrontDate) : Option Str :=
  let stem := (splitext fname).1
  let ext := (splitext fname).2
  let slug := if dateRe11 stem then stem.drop 11 else stem
  let pre := date_prefix_from_frontmatter front_date
  if pre = [] then none
  else if pre ++ slug ++ ext = fname then none
  else some (pre ++ slug ++ ext)

/-- Link resolution in the words of the claim, amended: the `doi` and `url`
fields are first stripped of surrounding whitespace (so a whitespace-only
doi counts as absent), and the returned url or doi is the stripped one, not
the verbatim field. -/
def specLink (doi url : Option Str) : Str :=
  let d := pyStrip (doi.getD [])
  let u := pyStrip (url.getD [])
  if d = [] then u
  else if "10.".data.isPrefixOf d then "https://doi.org/".data ++ d
  else if hasSub "doi.org".data d then d
  else if ¬ u = [] then u else d

/-- Per-name formatting in the words of the claim, amended: the comma branch
applies only to names with exactly one comma (the part before the comma is
the surname, the remainder the given names, each reduced to its first letter
plus a period, space-joined); names with no comma or with two or more commas
take the whitespace branch, whose surname is the last whitespace-separated
token and whose given names are the preceding tokens. -/
def specNameForm (name : Str) : Str :=
  if name.count ',' = 1 then
    let last := pyStrip (name.takeWhile (fun ch => ¬ ch = ','))
    let first := pyStrip ((name.dropWhile (fun ch => ¬ ch = ',')).drop 1)
    let initials := joinWith [' ']
      ((pyWords first).map (fun w => match w with | [] => [] | ch :: _ => [ch, '.']))
    if initials = [] then last else last ++ ", ".data ++ initials
  else
    let words := pyWords name
    let last := words.getLast?.getD []
    let initials := joinWith [' ']
      (words.dropLast.map (fun w => match w with | [] => [] | ch :: _ => [ch, '.']))
    if initials = [] then last else last ++ ", ".data ++ initials

/-- Per-name formatting in the words of the claim as stated: every name
containing a comma takes the comma branch, with the part before the first
comma as surname. -/
def specNameFormOrig (name : Str) : Str :=
  if 1 ≤ name.count ',' then
    let last := pyStrip (name.takeWhile (fun ch => ¬ ch = ','))
    let first := pyStrip ((name.dropWhile (fun ch => ¬ ch = ',')).drop 1)
    let initials := joinWith [' ']
      ((pyWords first).map (fun w => match w with | [] => [] | ch :: _ => [ch, '.']))
    if initials = [] then last else last ++ ", ".data ++ initials
  else
    let words := pyWords name
    let last := words.getLast?.getD []
    let initials := joinWith [' ']
      (words.dropLast.map (fun w => match w with | [] => [] | ch :: _ => [ch, '.']))
    if initials = [] then last else last ++ ", ".data ++ initials

/-- Lines contributed to the block by one requested key: the formatted entry
line and a blank separator when the key is found, nothing when it is
missing. -/
def entrySegment (bib : List (Str × Entry)) (k : Str) : List Str :=
  match lookupKey bib k with
  | some e => [format_reference_html k e, []]
  | none => []

/-- Requested keys absent from the bibliography, in request order. -/
def missingKeys (bib : List (Str × Entry)) (keys : List Str) : List Str :=
  keys.filter (fun k => (lookupKey bib k).isNone)

/-- Contents written to files by the effects of one `process_file` result. -/
def writtenContents (r : Bool × Str × List Effect) : List Str :=
  r.2.2.filterMap (fun e =>
    match e with
    | Effect.writeFile _ content => some content
    | Effect.copyFile _ _ => none
    | Effect.renameFile _ _ => none)

/-- Concrete frontmatter mapping for the C10 witness. -/
def fmW : Fm := ⟨some "r.bib".data, ["k".data], FrontDate.noDate⟩

/-- Concrete environment for the C10 witness: the YAML parser returns
`fmW`, the dumper prints its two keys in order, every path exists, and the
bibliography is empty. -/
def ctxW : Ctx :=
  ⟨fun _ => YamlRes.dict fmW, fun _ => "bibfile: r.bib\ncitekeys:\n- k".data,
   fun _ => true, fun _ => [], "T".data⟩

theorem splitOnFirst_isSome (p s : Str) :
    (splitOnFirst p s).isSome = hasSub p s := by
  induction s with
  | nil =>
    simp only [splitOnFirst, hasSub]
    split
    · next hp => simp [hp]
    · next hp =>
      simp only [Bool.not_eq_true] at hp
      simp [hp]
  | cons c cs ih =>
    simp only [splitOnFirst, hasSub]
    split
    · next hp => simp [hp]
    · next hp =>
      simp only [Bool.not_eq_true] at hp
      cases hs : splitOnFirst p cs <;> rw [hs] at ih <;> simp [← ih, hp]

theorem prefix_of_append_of_le {p x y : Str} (h : p <+: x ++ y)
    (hl : p.length ≤ x.length) : p <+: x :=
  List.prefix_of_prefix_length_le h (List.prefix_append x y) hl

theorem isPrefixOf_eq_of_le {p v w w' : Str} (hl : p.length ≤ v.length) :
    p.isPrefixOf (v ++ w) = p.isPrefixOf (v ++ w') := by
  rw [Bool.eq_iff_iff, List.isPrefixOf_iff_prefix, List.isPrefixOf_iff_prefix]
  constructor
  · intro h
    exact (prefix_of_append_of_le h hl).trans (List.prefix_append v w')
  · intro h
    exact (prefix_of_append_of_le h hl).trans (List.prefix_append v w)

theorem matchAt_succ (c : Char) (cs : Str) (i : Nat) :
    matchAt (c :: cs) (i + 1) ↔ matchAt cs i := by
  unfold matchAt
  have h1 : (c :: cs).drop (i + 1) = cs.drop i := rfl
  have h2 : (c :: cs).drop (i + 1 + BEGIN_MARK.length) = cs.drop (i + BEGIN_MARK.length) := by
    have h3 : i + 1 + BEGIN_MARK.length = (i + BEGIN_MARK.length) + 1 := by omega
    rw [h3]
    rfl
  rw [h1, h2]

theorem findRepl_head_match {s : Str} (h1 : BEGIN_MARK.isPrefixOf s = true)
    {m r : Str} (h2 : splitOnFirst END_MARK (s.drop BEGIN_MARK.length) = some (m, r)) :
    findRepl s = some ([], r) := by
  cases s with
  | nil => exact absurd h1 (by decide)
  | cons c cs => simp [findRepl, h1, h2]

theorem findRepl_head_no {c : Char} {cs : Str} (h : ¬ matchAt (c :: cs) 0) :
    findRepl (c :: cs) = (findRepl cs).map (fun q => (c :: q.1, q.2)) := by
  cases hp : BEGIN_MARK.isPrefixOf (c :: cs) with
  | false => simp [findRepl, hp]
  | true =>
    have hB : hasSub END_MARK ((c :: cs).drop BEGIN_MARK.length) = false := by
      cases hE : hasSub END_MARK ((c :: cs).drop BEGIN_MARK.length) with
      | false => rfl
      | true =>
        exact absurd ⟨by simpa using hp, by simpa using hE⟩ h
    have hnone : splitOnFirst END_MARK ((c :: cs).drop BEGIN_MARK.length) = none := by
      have hi := splitOnFirst_isSome END_MARK ((c :: cs).drop BEGIN_MARK.length)
      rw [hB] at hi
      exact Option.not_isSome_iff_eq_none.mp (by simp [hi])
    simp [findRepl, hp, hnone]

theorem findRepl_eq_none_iff (s : Str) : findRepl s = none ↔ ∀ i, ¬ matchAt s i := by
  induction s with
  | nil =>
    constructor
    · intro _ i hm
      rw [matchAt, List.drop_nil] at hm
      exact absurd hm.1 (by decide)
    · intro _
      rfl
  | cons c cs ih =>
    constructor
    · intro h i
      by_cases hm0 : matchAt (c :: cs) 0
      · obtain ⟨hp, hE⟩ := hm0
        have hp' : BEGIN_MARK.isPrefixOf (c :: cs) = true := by simpa using hp
        have hE' : hasSub END_MARK ((c :: cs).drop BEGIN_MARK.length) = true := by
          simpa using hE
        have hsome := splitOnFirst_isSome END_MARK ((c :: cs).drop BEGIN_MARK.length)
        rw [hE'] at hsome
        obtain ⟨⟨m, r⟩, hq⟩ := Option.isSome_iff_exists.mp hsome
        rw [findRepl_head_match hp' hq] at h
        exact absurd h (by simp)
      · rcases i with _ | j
        · exact hm0
        · rw [findRepl_head_no hm0] at h
          have hcs : findRepl cs = none := by
            cases hfr : findRepl cs with
            | none => rfl
            | some q =>
              rw [hfr] at h
              exact absurd h (by simp)
          rw [matchAt_succ]
          exact (ih.mp hcs) j
    · intro h
      rw [findRepl_head_no (h 0)]
      have hcs : findRepl cs = none :=
        ih.mpr (fun i hm => h (i + 1) ((matchAt_succ c cs i).mpr hm))
      rw [hcs]
      rfl

theorem spanExistsB_false_iff (s : Str) : spanExistsB s = false ↔ ∀ i, ¬ matchAt s i := by
  rw [spanExistsB, List.any_eq_false]
  constructor
  · intro h i hm
    by_cases hi : i < s.length
    · have hmem : i ∈ List.range s.length := List.mem_range.mpr hi
      have := h i hmem
      rw [hm.1, hm.2] at this
      simp at this
    · have hnil : s.drop i = [] := List.drop_eq_nil_of_le (by omega)
      rw [matchAt, hnil] at hm
      exact absurd hm.1 (by decide)
  · intro h i hmem
    cases hp : BEGIN_MARK.isPrefixOf (s.drop i) with
    | false => simp [hp]
    | true =>
      cases hE : hasSub END_MARK (s.drop (i + BEGIN_MARK.length)) with
      | false => simp [hp, hE]
      | true => exact absurd ⟨hp, hE⟩ (h i)

theorem findRepl_none_of_no_span {s : Str} (h : spanExistsB s = false) :
    findRepl s = none :=
  (findRepl_eq_none_iff s).mpr ((spanExistsB_false_iff s).mp h)

/-- The append branch of the inserter: when a marker is missing, the result
is the body, then exactly specTrailingPad md padding newlines, then the
block, and the padded body ends in a blank line. -/
theorem insert_append_exact (md blk : Str)
    (h : ¬ (hasSub BEGIN_MARK md = true ∧ hasSub END_MARK md = true)) :
    insert_or_replace_reference_block md blk =
      md ++ List.replicate (specTrailingPad md) '\n' ++ blk ∧
    ['\n', '\n'] <:+ md ++ List.replicate (specTrailingPad md) '\n' := by
  have hc : (hasSub BEGIN_MARK md && hasSub END_MARK md) = false := by
    cases hB : hasSub BEGIN_MARK md <;> cases hE : hasSub END_MARK md <;> simp_all
  have hnl : "\n".data = ['\n'] := rfl
  have hnl2 : "\n\n".data = ['\n', '\n'] := rfl
  by_cases h1 : "\n".data.isSuffixOf md = true
  · by_cases h2 : "\n\n".data.isSuffixOf md = true
    · have hp2 : ['\n', '\n'] <:+ md := by
        have := List.isSuffixOf_iff_suffix.mp h2
        rw [hnl2] at this
        exact this
      have hpad : specTrailingPad md = 0 := by
        unfold specTrailingPad
        rw [if_pos hp2]
      rw [hpad]
      refine ⟨?_, ?_⟩
      · simp [insert_or_replace_reference_block, hc, h1, h2]
      · simpa using hp2
    · have hp1 : ['\n'] <:+ md := by
        have := List.isSuffixOf_iff_suffix.mp h1
        rw [hnl] at this
        exact this
      have hnp2 : ¬ ['\n', '\n'] <:+ md := by
        intro hx
        apply h2
        rw [List.isSuffixOf_iff_suffix, hnl2]
        exact hx
      have hpad : specTrailingPad md = 1 := by
        unfold specTrailingPad
        rw [if_neg hnp2, if_pos hp1]
      rw [hpad]
      refine ⟨?_, ?_⟩
      · simp [insert_or_replace_reference_block, hc, h1, h2, hnl]
      · obtain ⟨y, hy⟩ := hp1
        refine ⟨y, ?_⟩
        rw [← hy]
        simp
  · have hnp1 : ¬ ['\n'] <:+ md := by
      intro hx
      apply h1
      rw [List.isSuffixOf_iff_suffix, hnl]
      exact hx
    have hnp2 : ¬ ['\n', '\n'] <:+ md := by
      intro hx
      apply hnp1
      obtain ⟨z, hz⟩ := hx
      refine ⟨z ++ ['\n'], ?_⟩
      rw [← hz]
      simp
    have h2 : ¬ ("\n\n".data.isSuffixOf (md ++ "\n".data) = true) := by
      intro hx
      obtain ⟨z, hz⟩ := List.isSuffixOf_iff_suffix.mp hx
      rw [hnl2, hnl] at hz
      have hz' : (z ++ ['\n']) ++ ['\n'] = md ++ ['\n'] := by
        rw [← hz]
        simp
      have hmd : z ++ ['\n'] = md := List.append_cancel_right hz'
      apply h1
      rw [List.isSuffixOf_iff_suffix, hnl]
      exact ⟨z, hmd⟩
    have hpad : specTrailingPad md = 2 := by
      unfold specTrailingPad
      rw [if_neg hnp2, if_neg hnp1]
    rw [hpad]
    refine ⟨?_, ?_⟩
    · simp [insert_or_replace_reference_block, hc, h1, h2, hnl]
    · refine ⟨md, ?_⟩
      simp

/-- C1 counterexample: on a body ending in three newlines (markers absent),
the code pads nothing and keeps all three newlines — two blank lines before
the appended block — while the claim demands exactly one blank line. -/
theorem C1_counterexample :
    insert_or_replace_reference_block "a\n\n\n".data "B".data = "a\n\n\nB".data ∧
    ¬ insert_or_replace_reference_block "a\n\n\n".data "B".data =
        claimNormalizedAppend "a\n\n\n".data "B".data :=
  ⟨by decide, by decide⟩

/-- C1 (amended): for every body in which the begin marker or the end marker
is absent, the function appends the block after padding the body with
exactly specTrailingPad md newlines — just enough that the padded body ends
in two newlines: none when the body already ends in two or more newlines,
one when it ends in exactly one, two otherwise — so at least one blank line
separates the existing content from the appended block. -/
theorem C1_append_pads_to_blank_line (md blk : Str)
    (h : ¬ (hasSub BEGIN_MARK md = true ∧ hasSub END_MARK md = true)) :
    insert_or_replace_reference_block md blk =
      md ++ List.replicate (specTrailingPad md) '\n' ++ blk ∧
    ['\n', '\n'] <:+ md ++ List.replicate (specTrailingPad md) '\n' :=
  insert_append_exact md blk h

theorem C1_witness :
    (¬ (hasSub BEGIN_MARK "a".data = true ∧ hasSub END_MARK "a".data = true)) ∧
    (insert_or_replace_reference_block "a".data "B".data =
      "a".data ++ List.replicate (specTrailingPad "a".data) '\n' ++ "B".data ∧
     ['\n', '\n'] <:+ "a".data ++ List.replicate (specTrailingPad "a".data) '\n') :=
  ⟨by decide, C1_append_pads_to_blank_line "a".data "B".data (by decide)⟩

/-- C9: when both marker strings occur in the body but no occurrence of the
begin marker is followed by a later end marker, the replacement pattern has
no match and the body is returned unchanged — the block is neither
substituted nor appended. -/
theorem C9_no_span_unchanged (md blk : Str)
    (hB : hasSub BEGIN_MARK md = true) (hE : hasSub END_MARK md = true)
    (hspan : spanExistsB md = false) :
    insert_or_replace_reference_block md blk = md := by
  have hnone := findRepl_none_of_no_span hspan
  simp [insert_or_replace_reference_block, hB, hE, hnone]

theorem C9_witness :
    (hasSub BEGIN_MARK (END_MARK ++ BEGIN_MARK) = true ∧
     hasSub END_MARK (END_MARK ++ BEGIN_MARK) = true ∧
     spanExistsB (END_MARK ++ BEGIN_MARK) = false) ∧
    insert_or_replace_reference_block (END_MARK ++ BEGIN_MARK) "B".data =
      END_MARK ++ BEGIN_MARK :=
  ⟨⟨by decide, by decide, by decide⟩,
   C9_no_span_unchanged (END_MARK ++ BEGIN_MARK) "B".data
     (by decide) (by decide) (by decide)⟩

/-- C8: with the dry-run flag set, `process_file` performs no file-system
effects on any input: no backup copy is made, the file is not overwritten,
and no rename happens; only the report is produced. -/
theorem C8_dry_run_no_effects (ctx : Ctx) (path original : Str)
    (inline_style : Bool) (base_folder : Str) :
    (process_file ctx path original inline_style true base_folder).2.2 = [] := by
  simp only [process_file]
  repeat' split
  all_goals simp_all

theorem safe_get_blankField (o : Option Str) : safe_get (blankField o) = safe_get o := by
  cases o <;> rfl

/-- C5: entry formatting is total in the field set — an absent field behaves
exactly like a blank one, defaulting to the empty string — and an entry with
no fields besides its citation key yields the minimal fragment. -/
theorem C5_total_formatting :
    (∀ key e, format_reference_html key (blankify e) = format_reference_html key e) ∧
    (∀ key, format_reference_html key emptyEntry =
      "1. <p id=\"".data ++ key ++ "\"></p>".data) := by
  constructor
  · intro key e
    simp only [format_reference_html, entry_link, blankify, safe_get_blankField]
  · intro key
    have h1 : format_authors (safe_get emptyEntry.author) = [] := rfl
    have h2 : safe_get emptyEntry.year = [] := rfl
    have h3 : normalize_whitespace (clean_bibtex_braces (safe_get emptyEntry.title)) = [] := rfl
    have h4 : safe_get emptyEntry.journal = [] := rfl
    have h5 : safe_get emptyEntry.volume = [] := rfl
    have h6 : safe_get emptyEntry.number = [] := rfl
    have h7 : safe_get emptyEntry.pages = [] := rfl
    have h8 : entry_link emptyEntry = [] := rfl
    have h9 : "\">".data ++ "</p>".data = "\"></p>".data := rfl
    simp only [format_reference_html, h1, h2, h3, h4, h5, h6, h7, h8]
    simp [h9, List.append_assoc]

/-- C7: `compute_target_path` realizes the specified rename computation (the
date being parseable exactly when the date-prefix extraction is nonempty),
and on the two quoted examples: a dated filename is re-dated from the
frontmatter date, and an unparseable date yields no rename. -/
theorem C7_rename_computation :
    (∀ fname d, compute_target_path fname d = specRenameTarget fname d) ∧
    compute_target_path "2020-01-01-old-slug.md".data (FrontDate.dateObj 2025 9 28) =
      some "2025-09-28-old-slug.md".data ∧
    compute_target_path "note.md".data (FrontDate.dateStr "unparseable".data) = none := by
  refine ⟨?_, by decide, by decide⟩
  intro fname d
  unfold compute_target_path specRenameTarget stripDatePre
  by_cases hp : date_prefix_from_frontmatter d = []
  · simp [hp]
  · rw [if_neg hp, if_neg hp]
    dsimp only
    by_cases he : fname = (date_prefix_from_frontmatter d ++
        if dateRe11 (splitext fname).1 = true then List.drop 11 (splitext fname).1
        else (splitext fname).1) ++ (splitext fname).2
    · rw [if_pos he, if_pos he.symm]
    · rw [if_neg he]
      have hne : ¬ ((date_prefix_from_frontmatter d ++
          if dateRe11 (splitext fname).1 = true then List.drop 11 (splitext fname).1
          else (splitext fname).1) ++ (splitext fname).2 = fname) :=
        fun hx => he hx.symm
      rw [if_neg hne]

theorem toNat_ofNat_small (n : Nat) (h : n < 55296) : (Char.ofNat n).toNat = n := by
  unfold Char.ofNat
  rw [dif_pos (Or.inl h)]
  rfl

theorem toLower_eq_iff (c d : Char) (hd : d.toNat < 65) :
    Char.toLower c = d ↔ c = d := by
  constructor
  · intro h
    unfold Char.toLower at h
    dsimp only at h
    split at h
    · next hin =>
      exfalso
      have hm : (Char.ofNat (c.toNat + 32)).toNat = c.toNat + 32 :=
        toNat_ofNat_small _ (by omega)
      have := congrArg Char.toNat h
      rw [hm] at this
      omega
    · exact h
  · intro h
    subst h
    unfold Char.toLower
    rw [if_neg (by omega)]

theorem beq_toLower_eq (d a : Char) (hd : d.toNat < 65) :
    (d == Char.toLower a) = (d == a) := by
  rw [Bool.eq_iff_iff, beq_iff_eq, beq_iff_eq]
  constructor
  · intro h
    exact ((toLower_eq_iff a d hd).mp h.symm).symm
  · intro h
    subst h
    exact ((toLower_eq_iff d d hd).mpr rfl).symm

/-- Lowercasing does not change whether a string starts with `"10."`. -/
theorem isPrefixOf_ten_lower (s : Str) :
    "10.".data.isPrefixOf (s.map Char.toLower) = "10.".data.isPrefixOf s := by
  rcases s with _ | ⟨a, _ | ⟨b, _ | ⟨c, rest⟩⟩⟩
  · rfl
  · simp [List.isPrefixOf, beq_toLower_eq '1' a (by decide)]
  · simp [List.isPrefixOf, beq_toLower_eq '1' a (by decide),
      beq_toLower_eq '0' b (by decide)]
  · simp [List.isPrefixOf, beq_toLower_eq '1' a (by decide),
      beq_toLower_eq '0' b (by decide), beq_toLower_eq '.' c (by decide)]

theorem ten_prefix_lower_iff (s : Str) :
    (['1', '0', '.'] <+: s.map Char.toLower) ↔ (['1', '0', '.'] <+: s) := by
  have h := isPrefixOf_ten_lower s
  have hs : "10.".data = ['1', '0', '.'] := rfl
  rw [hs, Bool.eq_iff_iff, List.isPrefixOf_iff_prefix, List.isPrefixOf_iff_prefix] at h
  exact h

/-- C6 counterexample: with doi absent and url `" http://example.com "`, the
code returns the stripped url, not the verbatim field value the claim
states. -/
theorem C6_counterexample :
    entry_link ⟨none, none, none, none, none, none, none, none,
      some " http://example.com ".data⟩ = "http://example.com".data ∧
    ¬ (" http://example.com ".data = "http://example.com".data) :=
  ⟨by decide, by decide⟩

/-- C6 (amended): `entry_link` resolves, over the whitespace-stripped doi
and url: a doi starting with `10.` gets the resolver prefix; a doi
containing `doi.org` is used as-is; any other nonempty doi falls back to the
stripped url, or to the stripped doi when the url is empty; an empty
(or absent, or whitespace-only) doi yields the stripped url.  The three
quoted examples evaluate as stated. -/
theorem C6_link_resolution :
    (∀ e : Entry, entry_link e = specLink e.doi e.url) ∧
    entry_link ⟨none, none, none, none, none, none, none,
      some "10.1000/xyz".data, none⟩ = "https://doi.org/10.1000/xyz".data ∧
    entry_link ⟨none, none, none, none, none, none, none,
      some "https://doi.org/10.1/x".data, none⟩ = "https://doi.org/10.1/x".data ∧
    entry_link ⟨none, none, none, none, none, none, none,
      some "notadoi".data, some "http://example.com".data⟩ =
      "http://example.com".data := by
  refine ⟨?_, by decide, by decide, by decide⟩
  intro e
  unfold entry_link specLink safe_get
  by_cases hd : pyStrip (Option.getD e.doi []) = []
  · simp [hd]
  · simp [hd, ten_prefix_lower_iff]

theorem splitChar_length (sep : Char) (s : Str) :
    (splitChar sep s).length = s.count sep + 1 := by
  induction s with
  | nil => simp [splitChar]
  | cons c cs ih =>
    by_cases hc : c = sep
    · subst hc
      simp [splitChar, List.count_cons, ih]
    · simp only [splitChar, if_neg hc]
      cases hs : splitChar sep cs with
      | nil =>
        rw [hs] at ih
        simp at ih
      | cons h t =>
        rw [hs] at ih
        simp only [List.length_cons] at ih
        simp [List.count_cons, hc, ih]

theorem splitChar_count_zero (sep : Char) (s : Str) (h : s.count sep = 0) :
    splitChar sep s = [s] := by
  induction s with
  | nil => rfl
  | cons c cs ih =>
    have hc : ¬ c = sep := by
      intro hx
      subst hx
      simp [List.count_cons] at h
    have hcs : cs.count sep = 0 := by
      simp [List.count_cons, hc] at h
      omega
    simp [splitChar, if_neg hc, ih hcs]

theorem splitChar_count_one (sep : Char) (s : Str) (h : s.count sep = 1) :
    splitChar sep s =
      [s.takeWhile (fun ch => ¬ ch = sep), (s.dropWhile (fun ch => ¬ ch = sep)).drop 1] := by
  induction s with
  | nil => simp at h
  | cons c cs ih =>
    by_cases hc : c = sep
    · subst hc
      have hcs : cs.count c = 0 := by
        simp [List.count_cons] at h
        omega
      simp [splitChar, splitChar_count_zero c cs hcs, List.takeWhile_cons,
        List.dropWhile_cons]
    · have hcs : cs.count sep = 1 := by
        simpa [List.count_cons, hc] using h
      simp [splitChar, if_neg hc, ih hcs, List.takeWhile_cons, List.dropWhile_cons, hc]

theorem wordsAux_sound (s cur : Str)
    (hcur : ∀ ch ∈ cur, isPySpace ch = false) :
    ∀ w ∈ wordsAux cur s, ¬ w = [] ∧ ∀ ch ∈ w, isPySpace ch = false := by
  induction s generalizing cur with
  | nil =>
    intro w hw
    simp only [wordsAux] at hw
    split at hw
    · simp at hw
    · next hcne =>
      simp only [List.mem_singleton] at hw
      subst hw
      refine ⟨by simpa using hcne, ?_⟩
      intro ch hch
      exact hcur ch (by simpa using hch)
  | cons c cs ih =>
    intro w hw
    simp only [wordsAux] at hw
    by_cases hc : isPySpace c = true
    · rw [if_pos hc] at hw
      split at hw
      · exact ih [] (by simp) w hw
      · next hcne =>
        simp only [List.mem_cons] at hw
        rcases hw with hw | hw
        · subst hw
          refine ⟨by simpa using hcne, ?_⟩
          intro ch hch
          exact hcur ch (by simpa using hch)
        · exact ih [] (by simp) w hw
    · rw [if_neg hc] at hw
      refine ih (c :: cur) ?_ w hw
      intro ch hch
      rcases List.mem_cons.mp hch with hch | hch
      · subst hch
        simpa using hc
      · exact hcur ch hch

theorem pyWords_sound (s : Str) :
    ∀ w ∈ pyWords s, ¬ w = [] ∧ ∀ ch ∈ w, isPySpace ch = false :=
  wordsAux_sound s [] (by simp)

theorem wordsAux_through (x : Str) (hx : ∀ ch ∈ x, isPySpace ch = false) :
    ∀ cur t, wordsAux cur (x ++ t) = wordsAux (x.reverse ++ cur) t := by
  induction x with
  | nil => intro cur t; simp
  | cons c x' ih =>
    intro cur t
    have hc : isPySpace c = false := hx c (by simp)
    have hx' : ∀ ch ∈ x', isPySpace ch = false := fun ch hch => hx ch (by simp [hch])
    simp only [List.cons_append, wordsAux, hc, List.append_eq]
    rw [ih hx' (c :: cur) t]
    simp

theorem pyWords_single (x : Str) (hne : ¬ x = [])
    (hx : ∀ ch ∈ x, isPySpace ch = false) : pyWords x = [x] := by
  unfold pyWords
  have h1 : wordsAux [] (x ++ []) = wordsAux (x.reverse ++ []) [] :=
    wordsAux_through x hx [] []
  simp only [List.append_nil] at h1
  rw [h1]
  simp only [wordsAux]
  rw [if_neg (by simpa using hne)]
  simp

theorem pyWords_join (ws : List Str)
    (hws : ∀ w ∈ ws, ¬ w = [] ∧ ∀ ch ∈ w, isPySpace ch = false) :
    pyWords (joinWith [' '] ws) = ws := by
  induction ws with
  | nil => rfl
  | cons x rest ih =>
    cases rest with
    | nil =>
      obtain ⟨hne, hx⟩ := hws x (by simp)
      exact pyWords_single x hne hx
    | cons y t =>
      obtain ⟨hne, hx⟩ := hws x (by simp)
      have hrest : ∀ w ∈ y :: t, ¬ w = [] ∧ ∀ ch ∈ w, isPySpace ch = false :=
        fun w hw => hws w (by simp [hw])
      have hjoin : joinWith [' '] (x :: y :: t) =
          x ++ (' ' :: joinWith [' '] (y :: t)) := by
        simp [joinWith]
      unfold pyWords
      rw [hjoin, wordsAux_through x hx [] _]
      simp only [wordsAux, List.append_nil]
      rw [if_pos (by decide)]
      rw [if_neg (by simpa using hne)]
      have := ih hrest
      unfold pyWords at this
      rw [this]
      simp

theorem formatName_eq_spec (name : Str) : formatName name = specNameForm name := by
  by_cases h1 : name.count ',' = 1
  · have hsplit := splitChar_count_one ',' name h1
    unfold formatName specNameForm initialsOf
    rw [if_pos h1, hsplit]
    simp only [List.map_cons, List.map_nil]
  · have hlen2 : ¬ ((splitChar ',' name).map pyStrip).length = 2 := by
      rw [List.length_map, splitChar_length]
      omega
    unfold formatName specNameForm initialsOf
    rw [if_neg h1]
    cases hsp : (splitChar ',' name).map pyStrip with
    | nil =>
      dsimp only
      by_cases hlen : (pyWords name).length > 1
      · rw [if_pos hlen,
          pyWords_join _ (fun w hw => pyWords_sound name w ((List.dropLast_sublist _).subset hw))]
      · rw [if_neg hlen]
        have hdl : (pyWords name).dropLast = [] := by
          cases hpw : pyWords name with
          | nil => rfl
          | cons w t =>
            cases t with
            | nil => rfl
            | cons w2 t2 =>
              rw [hpw] at hlen
              simp at hlen
        rw [hdl]
        rfl
    | cons a rest =>
      cases rest with
      | nil =>
        dsimp only
        by_cases hlen : (pyWords name).length > 1
        · rw [if_pos hlen,
            pyWords_join _ (fun w hw => pyWords_sound name w ((List.dropLast_sublist _).subset hw))]
        · rw [if_neg hlen]
          have hdl : (pyWords name).dropLast = [] := by
            cases hpw : pyWords name with
            | nil => rfl
            | cons w t =>
              cases t with
              | nil => rfl
              | cons w2 t2 =>
                rw [hpw] at hlen
                simp at hlen
          rw [hdl]
          rfl
      | cons b rest2 =>
        cases rest2 with
        | nil => exact absurd (by rw [hsp]; rfl) hlen2
        | cons c t =>
          dsimp only
          by_cases hlen : (pyWords name).length > 1
          · rw [if_pos hlen,
              pyWords_join _ (fun w hw => pyWords_sound name w ((List.dropLast_sublist _).subset hw))]
          · rw [if_neg hlen]
            have hdl : (pyWords name).dropLast = [] := by
              cases hpw : pyWords name with
              | nil => rfl
              | cons w t2 =>
                cases t2 with
                | nil => rfl
                | cons w2 t3 =>
                  rw [hpw] at hlen
                  simp at hlen
            rw [hdl]
            rfl

/-- C3 counterexample: on the two-comma name `Smith, Jr., John` the code
takes the whitespace branch and produces surname `John`, while the rule
claimed for every name containing a comma produces surname `Smith`. -/
theorem C3_counterexample :
    format_authors "Smith, Jr., John".data = "John, S. J.".data ∧
    specNameFormOrig "Smith, Jr., John".data = "Smith, J. J.".data ∧
    ¬ ("John, S. J.".data = "Smith, J. J.".data) :=
  ⟨by decide, by decide, by decide⟩

/-- C3 (amended): `format_authors` splits the field on the literal
`" and "`; a name with exactly one comma formats with the part before the
comma as surname and the remainder as given names, each reduced to its
first letter plus a period, space-joined; a name with no comma — or with
two or more commas — formats with the last whitespace-separated token as
surname.  The two quoted examples format as stated. -/
theorem C3_author_formatting :
    (∀ name, formatName name = specNameForm name) ∧
    (∀ field, format_authors field =
      if field = [] then []
      else joinWith andSep
        ((((splitAnd field).map pyStrip).filter (fun n => ¬ n = [])).map specNameForm)) ∧
    format_authors "Smith, John and Doe, Jane Q.".data = "Smith, J. and Doe, J. Q.".data ∧
    format_authors "John Smith".data = "Smith, J.".data := by
  refine ⟨fun name => formatName_eq_spec name, ?_, by decide, by decide⟩
  intro field
  by_cases hf : field = []
  · simp [format_authors, hf]
  · rw [format_authors, if_neg hf, if_neg hf]
    rw [List.map_congr_left (fun a _ => formatName_eq_spec a)]

theorem generate_fold_eq (bib : List (Str × Entry)) (keys : List Str)
    (acc : List Str × List Str) :
    keys.foldl (fun acc k =>
      match lookupKey bib k with
      | some e => (acc.1 ++ [format_reference_html k e, []], acc.2)
      | none => (acc.1, acc.2 ++ [k])) acc =
    (acc.1 ++ keys.flatMap (entrySegment bib), acc.2 ++ missingKeys bib keys) := by
  induction keys generalizing acc with
  | nil => simp [missingKeys]
  | cons k ks ih =>
    simp only [List.foldl_cons]
    cases hk : lookupKey bib k with
    | some e =>
      rw [ih]
      simp [entrySegment, missingKeys, hk, List.filter_cons]
    | none =>
      rw [ih]
      simp [entrySegment, missingKeys, hk, List.filter_cons]

/-- C4: between the markers, the generated block is the optional style
block, the heading and timestamp lines, one formatted entry line with a
blank-line separator per requested key found in the index — in request
order — and, exactly when at least one key is missing, a single trailing
notice listing the missing keys comma-joined in their original order.  The
quoted end-to-end example evaluates as stated, with title
`Two-D Turbulence.` and notice `Missing BibTeX entries for keys: b`. -/
theorem C4_block_generation :
    (∀ keys bib add_style now,
      generate_reference_block keys bib add_style now =
        BEGIN_MARK ++ "\n".data ++
          (rstripWs (joinWith "\n".data (
            (if add_style then [pyStrip DEFAULT_STYLE, []] else []) ++
            ["# Reference".data,
             "Generated bibliography markdown file. Date: ".data ++ now] ++
            keys.flatMap (entrySegment bib) ++
            (if missingKeys bib keys = [] then []
             else ["> **Note:** Missing BibTeX entries for keys: ".data ++
               joinWith ", ".data (missingKeys bib keys)]))) ++ "\n".data) ++
          "\n".data ++ END_MARK ++ "\n".data) ∧
    generate_reference_block ["a".data, "b".data]
        [("a".data, ⟨none, none, some "\x7bTwo-\x7b\x7bD\x7d\x7d Turbulence\x7d".data,
          none, none, none, none, none, none⟩)] false "T".data =
      ("<!-- BEGIN:references -->\n# Reference\nGenerated bibliography markdown file. Date: T\n1. <p id=\"a\"> Two-D Turbulence. </p>\n\n> **Note:** Missing BibTeX entries for keys: b\n\n<!-- END:references -->\n").data := by
  constructor
  · intro keys bib add_style now
    unfold generate_reference_block
    dsimp only
    rw [generate_fold_eq]
    by_cases hm : missingKeys bib keys = []
    · simp [hm, List.append_assoc]
    · simp [hm, List.append_assoc]
  · decide

/-- C10: on a non-dry run whose frontmatter carries `bibfile` and `citekeys`
and whose bibliography exists, the single written document is the stripped
YAML re-serialization of the parsed mapping wrapped in `---` fences,
followed by the updated body; the write is a function of the parsed mapping
and body alone, so any original text parsing to the same pair produces the
identical output and the original frontmatter text is not preserved
verbatim. -/
theorem C10_frontmatter_reserialized (ctx : Ctx) (path orig : Str)
    (inline_style : Bool) (base_folder : Str) (front : Fm) (body : Str)
    (hfb : extract_frontmatter ctx orig = (front, body))
    (hbf : ¬ front.bibfile.getD [] = [])
    (hck : ¬ front.citekeys = [])
    (hex : ctx.pathExists (if isAbsPath (front.bibfile.getD []) = true
        then front.bibfile.getD []
        else joinPath base_folder (front.bibfile.getD [])) = true) :
    (writtenContents (process_file ctx path orig inline_style false base_folder) =
      ["---\n".data ++ pyStrip (ctx.yamlDump front) ++ "\n---".data ++
        (let ub := insert_or_replace_reference_block body
            (generate_reference_block front.citekeys
              (ctx.bibMap (if isAbsPath (front.bibfile.getD []) = true
                then front.bibfile.getD []
                else joinPath base_folder (front.bibfile.getD [])))
              inline_style ctx.now)
         if "\n".data.isPrefixOf ub then ub else "\n".data ++ ub)]) ∧
    (∀ orig2, extract_frontmatter ctx orig2 = (front, body) →
      writtenContents (process_file ctx path orig2 inline_style false base_folder) =
        writtenContents (process_file ctx path orig inline_style false base_folder)) := by
  have main : ∀ o, extract_frontmatter ctx o = (front, body) →
      writtenContents (process_file ctx path o inline_style false base_folder) =
        ["---\n".data ++ pyStrip (ctx.yamlDump front) ++ "\n---".data ++
          (let ub := insert_or_replace_reference_block body
              (generate_reference_block front.citekeys
                (ctx.bibMap (if isAbsPath (front.bibfile.getD []) = true
                  then front.bibfile.getD []
                  else joinPath base_folder (front.bibfile.getD [])))
                inline_style ctx.now)
           if "\n".data.isPrefixOf ub then ub else "\n".data ++ ub)] := by
    intro o ho
    unfold process_file
    rw [ho]
    dsimp only
    rw [if_neg (by simp [hbf, hck])]
    rw [if_neg (by simp [hex])]
    rw [if_neg (by simp)]
    cases ht : compute_target_path path front.date with
    | some t =>
      by_cases hpe : ctx.pathExists t = true
      · simp [writtenContents, render_with_frontmatter, hpe]
      · simp [writtenContents, render_with_frontmatter, hpe]
    | none =>
      simp [writtenContents, render_with_frontmatter]
  exact ⟨main orig hfb, fun orig2 h2 => by rw [main orig2 h2, main orig hfb]⟩

theorem C10_witness :
    (extract_frontmatter ctxW "---\nY\n---\nbody".data = (fmW, "\nbody".data) ∧
     ¬ fmW.bibfile.getD [] = [] ∧ ¬ fmW.citekeys = [] ∧
     ctxW.pathExists (if isAbsPath (fmW.bibfile.getD []) = true
        then fmW.bibfile.getD []
        else joinPath ".".data (fmW.bibfile.getD [])) = true) ∧
    writtenContents (process_file ctxW "n.md".data "---\nY\n---\nbody".data false false ".".data) =
      [("---\nbibfile: r.bib\ncitekeys:\n- k\n---\nbody\n\n<!-- BEGIN:references -->\n# Reference\nGenerated bibliography markdown file. Date: T\n> **Note:** Missing BibTeX entries for keys: k\n\n<!-- END:references -->\n").data] :=
  ⟨⟨by decide, by decide, by decide, by decide⟩,
   ((C10_frontmatter_reserialized ctxW "n.md".data "---\nY\n---\nbody".data false
      ".".data fmW "\nbody".data (by decide) (by decide) (by decide) (by decide)).1).trans
     (by decide)⟩

